import Mathlib

/-!
Verification of `src/sentry/sentry_metrics/indexer/models.py`.

The Python file defines a Django model `MetricsKeyIndexer` with

  * a `string` column (`CharField(max_length=200)`) guarded by a table-level
    `UniqueConstraint(fields=["string"], name="unique_string")`,
  * a `date_added` column (`DateTimeField(default=timezone.now)`), and
  * a classmethod `get_next_values(num)` that executes the raw SQL
    `SELECT nextval('sentry_metricskeyindexer_id_seq') from generate_series(1,%s)`
    with parameter `num` and returns `cursor.fetchall()`.

We embed the PostgreSQL semantics of that statement shallowly: the sequence
`sentry_metricskeyindexer_id_seq` is an unbounded integer counter threaded
through explicitly, `generate_series(1, num)` is the ascending list of integers
from 1 to `num` (empty when `num < 1`), `nextval` atomically increments the
counter and yields the new value, and a `fetchall()` result is a list of rows,
each row a list of column values (the query selects a single column, so each
row is a one-element list).  The table contents are carried alongside the
counter so that frame conditions (which statements touch the table) can be
stated.  Timestamps are modelled as natural numbers.
-/

/-- One row of the `sentry_metricskeyindexer` table: the sequence-backed
primary key `id`, the indexed `string`, and the `date_added` timestamp. -/
structure MetricsKeyIndexerRow where
  id : Int
  string : String
  date_added : Nat
deriving Repr, DecidableEq

/-- Database state visible to this component: the current value of the
sequence `sentry_metricskeyindexer_id_seq` (the last value it handed out)
and the rows of the `sentry_metricskeyindexer` table. -/
structure DB where
  seq : Int
  table : List MetricsKeyIndexerRow
deriving Repr, DecidableEq

/-- Kind of SQL statement issued against the database, recorded so that
claims about which statements an operation performs can be stated. -/
inductive SqlKind where
  | select
  | insert
  | update
  | delete
deriving Repr, DecidableEq

/-- PostgreSQL `generate_series(lo, hi)`: the ascending integers from `lo`
to `hi` inclusive; empty when `hi < lo`. -/
def generate_series (lo hi : Int) : List Int :=
  (List.range (hi + 1 - lo).toNat).map (fun i : Nat => lo + (i : Int))

/-- PostgreSQL `nextval` on a sequence whose last value is `seq`: atomically
advance the sequence and return the new value together with the new state. -/
def nextval (seq : Int) : Int × Int :=
  (seq + 1, seq + 1)

/-- Evaluate `nextval` once per result row of the driving query, in order,
threading the sequence state: returns the values produced and the final
sequence state.  This is how PostgreSQL evaluates
`SELECT nextval(...) from generate_series(1, num)`: one `nextval` call per
generated row. -/
def nextvalTimes : Nat → Int → List Int × Int
  | 0, seq => ([], seq)
  | n + 1, seq =>
      let v := (nextval seq).1
      let r := nextvalTimes n (nextval seq).2
      (v :: r.1, r.2)

/-- Result of executing a query through a cursor: the rows `fetchall()`
returns (each row a list of column values), the database state afterwards,
and the kinds of SQL statements that were issued. -/
structure QueryResult where
  rows : List (List Int)
  db : DB
  stmts : List SqlKind
deriving Repr, DecidableEq

namespace MetricsKeyIndexer

/-- The declared `UniqueConstraint(fields=[...], name=...)` of the model's
`Meta.constraints`. -/
structure UniqueConstraint where
  fields : List String
  name : String
deriving Repr, DecidableEq, Inhabited

/-- The model's `Meta` options as declared in the source. -/
structure MetaOptions where
  db_table : String
  app_label : String
  constraints : List UniqueConstraint
deriving Repr, DecidableEq

/-- `class Meta` of `MetricsKeyIndexer`: table name, app label and the
table-level uniqueness constraint on the `string` column. -/
def Meta : MetaOptions :=
  { db_table := "sentry_metricskeyindexer"
    app_label := "sentry"
    constraints := [{ fields := ["string"], name := "unique_string" }] }

/-- The `max_length` argument of the `string = models.CharField(max_length=200)`
field declaration. -/
def string_max_length : Nat := 200

/-- `get_next_values(num)`: execute
`SELECT nextval('sentry_metricskeyindexer_id_seq') from generate_series(1,%s)`
with parameter `num` against database state `db` and return the `fetchall()`
rows, the new database state, and the statements issued.  The SELECT calls
`nextval` once per row of `generate_series(1, num)` and never touches the
table itself. -/
def get_next_values (db : DB) (num : Int) : QueryResult :=
  let series := generate_series 1 num
  let r := nextvalTimes series.length db.seq
  { rows := r.1.map (fun v => [v])
    db := { db with seq := r.2 }
    stmts := [SqlKind.select] }

/-- Construct a model instance/row.  Django evaluates the field default
`timezone.now` when no explicit `date_added` value is supplied, so the row's
`date_added` is the current time `now` in that case. -/
def mkRow (id : Int) (s : String) (now : Nat) (dateAdded : Option Nat) :
    MetricsKeyIndexerRow :=
  { id := id, string := s, date_added := dateAdded.getD now }

/-- Errors a row insertion can raise at the database. -/
inductive InsertError where
  | constraintViolation (name : String)
  | valueTooLong
deriving Repr, DecidableEq

/-- Insert a new row for string `s` at time `now` (with an optionally
explicit `date_added`).  The `id` is drawn from the shared sequence via
`nextval`.  PostgreSQL rejects a value longer than the `varchar(200)` column
created by `CharField(max_length=200)`, and the `unique_string` constraint
rejects a duplicate `string`; otherwise the row is appended. -/
def insertRow (db : DB) (s : String) (now : Nat) (dateAdded : Option Nat) :
    Except InsertError DB :=
  if string_max_length < s.length then
    .error .valueTooLong
  else if db.table.any (fun r => r.string == s) then
    .error (.constraintViolation (Meta.constraints.headI.name))
  else
    let v := nextval db.seq
    .ok { seq := v.2
          table := db.table ++ [mkRow v.1 s now dateAdded] }

end MetricsKeyIndexer

/-- An operation against the component's database state: a
`get_next_values` call, a row insertion by the surrounding indexing
subsystem, or a row deletion. -/
inductive Op where
  | reserve (num : Int)
  | insert (s : String) (now : Nat) (dateAdded : Option Nat)
  | delete (s : String)
deriving Repr, DecidableEq

/-- Apply one operation: returns the new database state and the list of
identifier values the operation returned to its caller (non-empty only for
`reserve`, whose values are the single column of each fetched row). -/
def applyOp (db : DB) : Op → DB × List Int
  | .reserve num =>
      let r := MetricsKeyIndexer.get_next_values db num
      (r.db, r.rows.flatten)
  | .insert s now d =>
      match MetricsKeyIndexer.insertRow db s now d with
      | .ok db' => (db', [])
      | .error _ => (db, [])
  | .delete s =>
      ({ db with table := db.table.filter (fun r => r.string ≠ s) }, [])

/-- Run a list of operations in order, collecting for each operation the
identifier values it returned. -/
def runOps (db : DB) : List Op → DB × List (List Int)
  | [] => (db, [])
  | op :: rest =>
      let p := applyOp db op
      let q := runOps p.1 rest
      (q.1, p.2 :: q.2)

/-- Interleaved execution of two concurrent `get_next_values` calls.  Each
`nextval` invocation is atomic at the storage engine, so a concurrent
execution is a schedule: a list of booleans saying whose `nextval` runs
next (`true` for the first caller).  Returns the values each caller
received and the final sequence state. -/
def runSchedule : List Bool → Int → List Int × List Int × Int
  | [], seq => ([], [], seq)
  | b :: rest, seq =>
      let v := (nextval seq).1
      let r := runSchedule rest (nextval seq).2
      if b then (v :: r.1, r.2.1, r.2.2) else (r.1, v :: r.2.1, r.2.2)

/-! ### Basic lemmas about the sequence semantics -/

theorem nextvalTimes_fst (n : Nat) :
    ∀ s : Int, (nextvalTimes n s).1
      = (List.range n).map (fun i : Nat => s + 1 + (i : Int)) := by
  induction n with
  | zero => intro s; simp [nextvalTimes]
  | succ n ih =>
      intro s
      simp only [nextvalTimes, nextval, ih (s + 1)]
      rw [List.range_succ_eq_map, List.map_cons, List.map_map]
      refine congrArg₂ _ (by simp) (List.map_congr_left ?_)
      intro i _
      simp only [Function.comp]
      push_cast
      ring

theorem nextvalTimes_snd (n : Nat) :
    ∀ s : Int, (nextvalTimes n s).2 = s + (n : Int) := by
  induction n with
  | zero => intro s; simp [nextvalTimes]
  | succ n ih =>
      intro s
      simp only [nextvalTimes, nextval, ih (s + 1)]
      push_cast
      ring

theorem flatten_singletons (l : List Int) :
    (l.map (fun v => [v])).flatten = l := by
  induction l with
  | nil => rfl
  | cons a l ih => simp only [List.map_cons, List.flatten_cons, ih, List.singleton_append]

theorem generate_series_one_length (num : Int) :
    (generate_series 1 num).length = num.toNat := by
  simp [generate_series]

theorem get_next_values_rows (db : DB) (num : Int) :
    (MetricsKeyIndexer.get_next_values db num).rows
      = ((List.range num.toNat).map (fun i : Nat => db.seq + 1 + (i : Int))).map
          (fun v => [v]) := by
  show ((nextvalTimes (generate_series 1 num).length db.seq).1).map (fun v => [v]) = _
  rw [generate_series_one_length, nextvalTimes_fst]

theorem get_next_values_flatten (db : DB) (num : Int) :
    (MetricsKeyIndexer.get_next_values db num).rows.flatten
      = (List.range num.toNat).map (fun i : Nat => db.seq + 1 + (i : Int)) := by
  rw [get_next_values_rows, flatten_singletons]

theorem get_next_values_seq (db : DB) (num : Int) :
    (MetricsKeyIndexer.get_next_values db num).db.seq = db.seq + (num.toNat : Int) := by
  show (nextvalTimes (generate_series 1 num).length db.seq).2 = _
  rw [generate_series_one_length, nextvalTimes_snd]

theorem get_next_values_table (db : DB) (num : Int) :
    (MetricsKeyIndexer.get_next_values db num).db.table = db.table := rfl

theorem get_next_values_stmts (db : DB) (num : Int) :
    (MetricsKeyIndexer.get_next_values db num).stmts = [SqlKind.select] := rfl

theorem sorted_lt_seq_range (s : Int) (n : Nat) :
    List.Sorted (· < ·) ((List.range n).map (fun i : Nat => s + 1 + (i : Int))) := by
  refine List.Pairwise.map _ ?_ (List.pairwise_lt_range n)
  intro a b hab
  omega

theorem mem_seq_range (s : Int) (n : Nat) (v : Int) :
    v ∈ (List.range n).map (fun i : Nat => s + 1 + (i : Int))
      ↔ s < v ∧ v ≤ s + (n : Int) := by
  simp only [List.mem_map, List.mem_range]
  constructor
  · rintro ⟨i, hi, rfl⟩
    omega
  · rintro ⟨h1, h2⟩
    exact ⟨(v - s - 1).toNat, by omega, by omega⟩

/-! ### Claim theorems about `get_next_values` -/

/-- C1: for every positive `num`, `get_next_values(num)` returns exactly
`num` values (one per fetched row), all distinct, in strictly ascending
order. -/
theorem get_next_values_count_distinct_ascending (db : DB) (num : Int)
    (hnum : 0 < num) :
    (((MetricsKeyIndexer.get_next_values db num).rows.flatten.length : Int) = num)
      ∧ (MetricsKeyIndexer.get_next_values db num).rows.flatten.Nodup
      ∧ List.Sorted (· < ·) (MetricsKeyIndexer.get_next_values db num).rows.flatten := by
  rw [get_next_values_flatten]
  refine ⟨?_, (sorted_lt_seq_range db.seq num.toNat).nodup,
    sorted_lt_seq_range db.seq num.toNat⟩
  simp [Int.toNat_of_nonneg hnum.le]

/-- Witness for C1 at `num = 3` against a sequence standing at 10. -/
theorem get_next_values_count_distinct_ascending_witness :
    (0 : Int) < 3
      ∧ ((((MetricsKeyIndexer.get_next_values ⟨10, []⟩ 3).rows.flatten.length : Int) = 3)
          ∧ (MetricsKeyIndexer.get_next_values ⟨10, []⟩ 3).rows.flatten.Nodup
          ∧ List.Sorted (· < ·)
              (MetricsKeyIndexer.get_next_values ⟨10, []⟩ 3).rows.flatten) :=
  ⟨by decide, get_next_values_count_distinct_ascending ⟨10, []⟩ 3 (by decide)⟩

/-- C2 counterexample: at count 0 the call does not reject before touching
storage — the SELECT is still issued (the statement list is non-empty) and
the call returns normally with an empty row list instead of failing. -/
theorem get_next_values_zero_count_counterexample :
    ¬ ((MetricsKeyIndexer.get_next_values ⟨10, []⟩ 0).stmts = [])
      ∧ (MetricsKeyIndexer.get_next_values ⟨10, []⟩ 0).rows = [] := by
  constructor
  · intro h
    simp [MetricsKeyIndexer.get_next_values] at h
  · rw [get_next_values_rows]
    simp

/-- C2 (amended): for `num ≤ 0`, `get_next_values` does not fail and is not
rejected before storage is contacted: the SELECT is issued anyway, no values
are produced (empty row list) and the database state is unchanged. -/
theorem get_next_values_nonpositive_returns_empty (db : DB) (num : Int)
    (hnum : num ≤ 0) :
    (MetricsKeyIndexer.get_next_values db num).rows = []
      ∧ (MetricsKeyIndexer.get_next_values db num).db = db
      ∧ (MetricsKeyIndexer.get_next_values db num).stmts = [SqlKind.select] := by
  have h0 : num.toNat = 0 := Int.toNat_of_nonpos hnum
  refine ⟨?_, ?_, rfl⟩
  · rw [get_next_values_rows, h0]
    rfl
  · have hseq := get_next_values_seq db num
    rw [h0] at hseq
    have htab := get_next_values_table db num
    calc (MetricsKeyIndexer.get_next_values db num).db
        = ⟨(MetricsKeyIndexer.get_next_values db num).db.seq,
           (MetricsKeyIndexer.get_next_values db num).db.table⟩ := rfl
      _ = ⟨db.seq, db.table⟩ := by rw [hseq, htab]; simp
      _ = db := rfl

/-- Witness for the amended C2 at `num = -1`. -/
theorem get_next_values_nonpositive_returns_empty_witness :
    (-1 : Int) ≤ 0
      ∧ ((MetricsKeyIndexer.get_next_values ⟨10, []⟩ (-1)).rows = []
          ∧ (MetricsKeyIndexer.get_next_values ⟨10, []⟩ (-1)).db = (⟨10, []⟩ : DB)
          ∧ (MetricsKeyIndexer.get_next_values ⟨10, []⟩ (-1)).stmts
              = [SqlKind.select]) :=
  ⟨by decide, get_next_values_nonpositive_returns_empty ⟨10, []⟩ (-1) (by decide)⟩

/-- C3: each call advances the shared counter by exactly the requested count
(for nonnegative counts), and concretely, with the sequence at 10 a call with
count 3 returns the values 11, 12, 13 and a subsequent call with count 2
returns 14, 15 — consecutive ranges. -/
theorem get_next_values_consecutive_ranges (t : List MetricsKeyIndexerRow)
    (db : DB) (num : Int) (hnum : 0 ≤ num) :
    ((MetricsKeyIndexer.get_next_values db num).db.seq = db.seq + num)
      ∧ (MetricsKeyIndexer.get_next_values ⟨10, t⟩ 3).rows.flatten = [11, 12, 13]
      ∧ (MetricsKeyIndexer.get_next_values
            (MetricsKeyIndexer.get_next_values ⟨10, t⟩ 3).db 2).rows.flatten
          = [14, 15] := by
  refine ⟨?_, ?_, ?_⟩
  · rw [get_next_values_seq, Int.toNat_of_nonneg hnum]
  · rw [get_next_values_flatten]
    show (List.range (3 : Int).toNat).map (fun i : Nat => (10 : Int) + 1 + (i : Int))
        = [11, 12, 13]
    decide
  · rw [get_next_values_flatten, get_next_values_seq]
    show (List.range (2 : Int).toNat).map
          (fun i : Nat => (10 : Int) + ((3 : Int).toNat : Int) + 1 + (i : Int))
        = [14, 15]
    decide

/-- Witness for C3 at `num = 2` against an empty table. -/
theorem get_next_values_consecutive_ranges_witness :
    (0 : Int) ≤ 2
      ∧ (((MetricsKeyIndexer.get_next_values ⟨0, []⟩ 2).db.seq = 0 + 2)
          ∧ (MetricsKeyIndexer.get_next_values ⟨10, []⟩ 3).rows.flatten = [11, 12, 13]
          ∧ (MetricsKeyIndexer.get_next_values
                (MetricsKeyIndexer.get_next_values ⟨10, []⟩ 3).db 2).rows.flatten
              = [14, 15]) :=
  ⟨by decide, get_next_values_consecutive_ranges [] ⟨0, []⟩ 2 (by decide)⟩

/-- C9: `get_next_values` returns the raw cursor rows: a list of one-element
row tuples, each wrapping one allocated sequence value, not a list of bare
integers. -/
theorem get_next_values_raw_rows (db : DB) (num : Int) :
    (MetricsKeyIndexer.get_next_values db num).rows
      = ((List.range num.toNat).map (fun i : Nat => db.seq + 1 + (i : Int))).map
          (fun v => [v]) :=
  get_next_values_rows db num

/-- C10: `get_next_values` leaves the table unchanged and issues exactly one
SQL statement, a SELECT — never an INSERT, UPDATE or DELETE. -/
theorem get_next_values_table_frame (db : DB) (num : Int) :
    (MetricsKeyIndexer.get_next_values db num).db.table = db.table
      ∧ (MetricsKeyIndexer.get_next_values db num).stmts = [SqlKind.select] :=
  ⟨rfl, rfl⟩

/-! ### Lemmas about operation traces -/

theorem insertRow_ok_seq {db : DB} {s : String} {now : Nat} {d : Option Nat}
    {db' : DB} (h : MetricsKeyIndexer.insertRow db s now d = .ok db') :
    db'.seq = db.seq + 1 := by
  unfold MetricsKeyIndexer.insertRow at h
  split at h
  · simp at h
  · split at h
    · simp at h
    · simp only [Except.ok.injEq] at h
      subst h
      rfl

theorem insertRow_ok_table {db : DB} {s : String} {now : Nat} {d : Option Nat}
    {db' : DB} (h : MetricsKeyIndexer.insertRow db s now d = .ok db') :
    db'.table = db.table ++ [MetricsKeyIndexer.mkRow (db.seq + 1) s now d]
      ∧ s.length ≤ MetricsKeyIndexer.string_max_length := by
  unfold MetricsKeyIndexer.insertRow at h
  split at h
  next hlt => simp at h
  next hlen =>
    split at h
    next => simp at h
    next hdup =>
      simp only [Except.ok.injEq] at h
      subst h
      exact ⟨rfl, Nat.le_of_not_lt hlen⟩

theorem applyOp_seq_le (db : DB) (op : Op) : db.seq ≤ (applyOp db op).1.seq := by
  cases op with
  | reserve num =>
      show db.seq ≤ (MetricsKeyIndexer.get_next_values db num).db.seq
      rw [get_next_values_seq]
      have h : (0 : Int) ≤ (num.toNat : Int) := Int.ofNat_nonneg _
      omega
  | insert s now d =>
      simp only [applyOp]
      cases hins : MetricsKeyIndexer.insertRow db s now d with
      | ok db' =>
          have h := insertRow_ok_seq hins
          show db.seq ≤ db'.seq
          omega
      | error e => exact le_refl _
  | delete s => exact le_refl _

theorem applyOp_out_bound (db : DB) (op : Op) :
    ∀ v ∈ (applyOp db op).2, db.seq < v ∧ v ≤ (applyOp db op).1.seq := by
  cases op with
  | reserve num =>
      intro v hv
      simp only [applyOp] at hv ⊢
      rw [get_next_values_flatten, mem_seq_range] at hv
      rw [get_next_values_seq]
      exact hv
  | insert s now d =>
      intro v hv
      simp only [applyOp] at hv
      cases hins : MetricsKeyIndexer.insertRow db s now d with
      | ok db' => rw [hins] at hv; simp at hv
      | error e => rw [hins] at hv; simp at hv
  | delete s =>
      intro v hv
      simp only [applyOp] at hv
      simp at hv

theorem runOps_out_gt (ops : List Op) :
    ∀ db : DB, ∀ b ∈ (runOps db ops).2, ∀ v ∈ b, db.seq < v := by
  induction ops with
  | nil =>
      intro db b hb
      simp [runOps] at hb
  | cons op rest ih =>
      intro db b hb v hv
      simp only [runOps, List.mem_cons] at hb
      cases hb with
      | inl h =>
          subst h
          exact (applyOp_out_bound db op v hv).1
      | inr h =>
          have h1 := ih (applyOp db op).1 b h v hv
          have h2 := applyOp_seq_le db op
          omega

/-- C4: identifier values are never reused across the lifetime of the
counter: over any history of operations (reservations, row insertions, row
deletions) from any starting state, the value lists returned by distinct
`get_next_values` calls are pairwise disjoint — no value is ever returned by
two different calls, independent of table contents or deletions. -/
theorem reserve_values_never_reused (db : DB) (ops : List Op) :
    List.Pairwise (fun a b => ∀ v, v ∈ a → v ∉ b) (runOps db ops).2 := by
  induction ops generalizing db with
  | nil => simp [runOps]
  | cons op rest ih =>
      simp only [runOps]
      refine List.Pairwise.cons ?_ (ih (applyOp db op).1)
      intro b hb v hv hvb
      have h1 := (applyOp_out_bound db op v hv).2
      have h2 := runOps_out_gt rest (applyOp db op).1 b hb v hvb
      omega

/-! ### Lemmas about interleaved schedules -/

theorem runSchedule_mem_gt (sched : List Bool) :
    ∀ seq : Int, (∀ v ∈ (runSchedule sched seq).1, seq < v)
      ∧ ∀ v ∈ (runSchedule sched seq).2.1, seq < v := by
  induction sched with
  | nil =>
      intro seq
      simp [runSchedule]
  | cons b rest ih =>
      intro seq
      cases b with
      | true =>
          simp only [runSchedule, nextval, if_true]
          constructor
          · intro v hv
            rcases List.mem_cons.mp hv with h | h
            · omega
            · have := (ih (seq + 1)).1 v h
              omega
          · intro v hv
            have := (ih (seq + 1)).2 v hv
            omega
      | false =>
          simp only [runSchedule, nextval, if_false]
          constructor
          · intro v hv
            have := (ih (seq + 1)).1 v hv
            omega
          · intro v hv
            rcases List.mem_cons.mp hv with h | h
            · omega
            · have := (ih (seq + 1)).2 v h
              omega

theorem runSchedule_fst_not_mem_snd (sched : List Bool) :
    ∀ seq : Int, ∀ v ∈ (runSchedule sched seq).1, v ∉ (runSchedule sched seq).2.1 := by
  induction sched with
  | nil =>
      intro seq v hv
      simp [runSchedule] at hv
  | cons b rest ih =>
      intro seq v hv hv2
      cases b with
      | true =>
          simp only [runSchedule, nextval, if_true] at hv hv2
          rcases List.mem_cons.mp hv with h | h
          · subst h
            exact absurd ((runSchedule_mem_gt rest (seq + 1)).2 _ hv2) (by omega)
          · exact ih (seq + 1) v h hv2
      | false =>
          simp only [runSchedule, nextval, if_false] at hv hv2
          rcases List.mem_cons.mp hv2 with h | h
          · subst h
            exact absurd ((runSchedule_mem_gt rest (seq + 1)).1 _ hv) (by omega)
          · exact ih (seq + 1) v hv h

theorem runSchedule_replicate_true (n : Nat) :
    ∀ seq : Int, runSchedule (List.replicate n true) seq
      = ((nextvalTimes n seq).1, [], (nextvalTimes n seq).2) := by
  induction n with
  | zero => intro seq; rfl
  | succ n ih =>
      intro seq
      simp only [List.replicate, runSchedule, nextvalTimes, nextval, ih (seq + 1), if_true]

/-- C6: no two concurrent `get_next_values` calls receive overlapping
values.  A concurrent execution is modelled as an arbitrary interleaving of
the two calls' atomic `nextval` steps on the shared sequence; for every
schedule, the two value lists received are disjoint.  Moreover the
uninterrupted schedule of one caller produces exactly the values a
sequential `get_next_values` call returns, tying the interleaving model to
the implementation. -/
theorem concurrent_reserve_disjoint (sched : List Bool) (seq : Int)
    (db : DB) (num : Int) :
    List.Disjoint (runSchedule sched seq).1 (runSchedule sched seq).2.1
      ∧ (runSchedule (List.replicate num.toNat true) db.seq).1
          = (MetricsKeyIndexer.get_next_values db num).rows.flatten := by
  constructor
  · intro v hv hv2
    exact runSchedule_fst_not_mem_snd sched seq v hv hv2
  · rw [runSchedule_replicate_true, get_next_values_flatten, nextvalTimes_fst]

/-! ### Claim theorems about the table schema -/

/-- C5: the model declares a table-level uniqueness constraint on the
`string` column named `unique_string`, and inserting the same string value
twice yields exactly one success and one ConstraintViolation failure: from
any state not yet containing the value, the first insertion succeeds and the
second fails with the `unique_string` violation, whichever caller goes
first. -/
theorem unique_string_constraint_duplicate_insert (db : DB) (s : String)
    (now1 now2 : Nat) (d1 d2 : Option Nat)
    (hlen : s.length ≤ MetricsKeyIndexer.string_max_length)
    (hfresh : ∀ r ∈ db.table, r.string ≠ s) :
    MetricsKeyIndexer.Meta.constraints
        = [{ fields := ["string"], name := "unique_string" }]
      ∧ ∃ db' : DB, MetricsKeyIndexer.insertRow db s now1 d1 = .ok db'
          ∧ MetricsKeyIndexer.insertRow db' s now2 d2
              = .error (.constraintViolation "unique_string") := by
  have hany : db.table.any (fun r => r.string == s) = false := by
    rw [List.any_eq_false]
    intro r hr
    simpa using hfresh r hr
  refine ⟨rfl,
    ⟨{ seq := db.seq + 1,
       table := db.table ++ [MetricsKeyIndexer.mkRow (db.seq + 1) s now1 d1] },
     ?_, ?_⟩⟩
  · unfold MetricsKeyIndexer.insertRow
    rw [if_neg (Nat.not_lt.mpr hlen), if_neg (by simp [hany])]
    rfl
  · unfold MetricsKeyIndexer.insertRow
    rw [if_neg (Nat.not_lt.mpr hlen), if_pos (by simp [MetricsKeyIndexer.mkRow])]
    rfl

/-- Witness for C5: inserting `"a"` twice into an empty table. -/
theorem unique_string_constraint_duplicate_insert_witness :
    ("a".length ≤ MetricsKeyIndexer.string_max_length)
      ∧ (∀ r ∈ (⟨0, []⟩ : DB).table, r.string ≠ "a")
      ∧ (MetricsKeyIndexer.Meta.constraints
            = [{ fields := ["string"], name := "unique_string" }]
          ∧ ∃ db' : DB, MetricsKeyIndexer.insertRow ⟨0, []⟩ "a" 5 none = .ok db'
              ∧ MetricsKeyIndexer.insertRow db' "a" 6 none
                  = .error (.constraintViolation "unique_string")) :=
  ⟨by decide, by simp,
    unique_string_constraint_duplicate_insert ⟨0, []⟩ "a" 5 6 none none
      (by decide) (by simp)⟩

theorem applyOp_table_strings (db : DB) (op : Op) :
    ∀ r ∈ (applyOp db op).1.table,
      r ∈ db.table ∨ r.string.length ≤ MetricsKeyIndexer.string_max_length := by
  cases op with
  | reserve num =>
      intro r hr
      rw [show (applyOp db (.reserve num)).1.table
            = (MetricsKeyIndexer.get_next_values db num).db.table from rfl,
          get_next_values_table] at hr
      exact Or.inl hr
  | insert s now d =>
      intro r hr
      simp only [applyOp] at hr
      cases hins : MetricsKeyIndexer.insertRow db s now d with
      | ok db' =>
          rw [hins] at hr
          have htab := insertRow_ok_table hins
          replace hr : r ∈ db'.table := hr
          rw [htab.1] at hr
          rcases List.mem_append.mp hr with h | h
          · exact Or.inl h
          · right
            rcases List.mem_singleton.mp h with rfl
            exact htab.2
      | error e =>
          rw [hins] at hr
          exact Or.inl hr
  | delete s =>
      intro r hr
      simp only [applyOp] at hr
      exact Or.inl (List.mem_of_mem_filter hr)

theorem runOps_table_strings (ops : List Op) :
    ∀ db : DB,
      (∀ r ∈ db.table, r.string.length ≤ MetricsKeyIndexer.string_max_length) →
      ∀ r ∈ (runOps db ops).1.table,
        r.string.length ≤ MetricsKeyIndexer.string_max_length := by
  induction ops with
  | nil => intro db hdb; exact hdb
  | cons op rest ih =>
      intro db hdb
      refine ih (applyOp db op).1 ?_
      intro r hr
      rcases applyOp_table_strings db op r hr with h | h
      · exact hdb r h
      · exact h

/-- C7: the model's `string` field is declared with a maximum length of 200
characters, and this bound holds of every row of the table: over any history
of operations from a state whose rows satisfy the bound, every stored row's
string has length at most 200. -/
theorem string_bounded_200 (db : DB) (ops : List Op)
    (hdb : ∀ r ∈ db.table, r.string.length ≤ MetricsKeyIndexer.string_max_length) :
    MetricsKeyIndexer.string_max_length = 200
      ∧ ∀ r ∈ (runOps db ops).1.table,
          r.string.length ≤ MetricsKeyIndexer.string_max_length :=
  ⟨rfl, runOps_table_strings ops db hdb⟩

/-- Witness for C7: one insertion into an empty table. -/
theorem string_bounded_200_witness :
    (∀ r ∈ (⟨0, []⟩ : DB).table,
        r.string.length ≤ MetricsKeyIndexer.string_max_length)
      ∧ (MetricsKeyIndexer.string_max_length = 200
          ∧ ∀ r ∈ (runOps ⟨0, []⟩ [.insert "a" 5 none]).1.table,
              r.string.length ≤ MetricsKeyIndexer.string_max_length) :=
  ⟨by simp, string_bounded_200 ⟨0, []⟩ [.insert "a" 5 none] (by simp)⟩

/-- C8: a newly created row's `date_added` defaults to the creation time
when no explicit value is supplied: the field default used by row
construction is the current time, and a successful insertion without an
explicit timestamp appends exactly one row stamped with the insertion-time
`now`. -/
theorem date_added_defaults_to_now (db db' : DB) (id : Int) (s : String)
    (now : Nat) (h : MetricsKeyIndexer.insertRow db s now none = .ok db') :
    (MetricsKeyIndexer.mkRow id s now none).date_added = now
      ∧ ∃ r : MetricsKeyIndexerRow,
          db'.table = db.table ++ [r] ∧ r.string = s ∧ r.date_added = now := by
  refine ⟨rfl, ?_⟩
  have htab := (insertRow_ok_table h).1
  exact ⟨MetricsKeyIndexer.mkRow (db.seq + 1) s now none, htab, rfl, rfl⟩

/-- Witness for C8: inserting `"a"` at time 5 into an empty table. -/
theorem date_added_defaults_to_now_witness :
    (MetricsKeyIndexer.insertRow ⟨0, []⟩ "a" 5 none
        = .ok ⟨1, [{ id := 1, string := "a", date_added := 5 }]⟩)
      ∧ ((MetricsKeyIndexer.mkRow 1 "a" 5 none).date_added = 5
          ∧ ∃ r : MetricsKeyIndexerRow,
              (⟨1, [{ id := 1, string := "a", date_added := 5 }]⟩ : DB).table
                  = (⟨0, []⟩ : DB).table ++ [r]
                ∧ r.string = "a" ∧ r.date_added = 5) :=
  ⟨rfl,
    date_added_defaults_to_now ⟨0, []⟩ ⟨1, [{ id := 1, string := "a", date_added := 5 }]⟩
      1 "a" 5 rfl⟩
